import Mathlib

/-!
Verification of the resilient tool-orchestration layer of the finagentai
repository: the rate limiter and retrying gateway client
(`src/kite/mcpclient/kite_mcp_client.py`), the dispatcher
(`backend/src/kite/portbot/agent/master_agent.py`) and the streaming
conversation controller (`backend/src/kite/portbot/chatbot.py`), shallowly
embedded as executable Lean definitions.
-/

namespace Finagent

/-! ## RateLimiter (kite_mcp_client.py, class RateLimiter)

Timestamps are rationals; `prune` is the list comprehension that drops
requests outside the time window, and `rlStep` is one pass of the body of
`RateLimiter.acquire`: either the request is recorded and granted (`none`
wait), or the computed sleep time `time_window - (now - requests[0])` is
returned and nothing is granted. -/

def prune (T now : ℚ) (reqs : List ℚ) : List ℚ :=
  reqs.filter (fun g => decide (now - g < T))

def rlStep (maxR : ℕ) (T : ℚ) (reqs : List ℚ) (now : ℚ) : List ℚ × Option ℚ :=
  let pruned := prune T now reqs
  if pruned.length < maxR then (pruned ++ [now], none)
  else (pruned, some (T - (now - pruned.headI)))

/-- Timestamps of the granted acquisitions when the check inside `acquire`
runs at each of the given attempt times, starting from request list `reqs`. -/
def rlGrants (maxR : ℕ) (T : ℚ) : List ℚ → List ℚ → List ℚ
  | _, [] => []
  | reqs, t :: ts =>
    let st := rlStep maxR T reqs t
    match st.2 with
    | none => t :: rlGrants maxR T st.1 ts
    | some _ => rlGrants maxR T st.1 ts

/-- Number of grant timestamps inside the sliding window `(w, w + T]`. -/
def windowCount (T w : ℚ) (l : List ℚ) : ℕ :=
  (l.filter (fun g => decide (w < g) && decide (g ≤ w + T))).length

lemma filter_length_mono {α : Type} (l : List α) (p q : α → Bool)
    (h : ∀ a, p a = true → q a = true) :
    (l.filter p).length ≤ (l.filter q).length := by
  induction l with
  | nil => simp
  | cons a as ih =>
    by_cases hp : p a = true
    · simp [List.filter_cons, hp, h a hp]; omega
    · simp only [List.filter_cons]
      rw [Bool.not_eq_true] at hp
      rw [hp]
      cases hq : q a <;> simp <;> omega

lemma prune_prune {T p t : ℚ} (hpt : p ≤ t) (G : List ℚ) :
    prune T t (prune T p G) = prune T t G := by
  unfold prune
  rw [List.filter_filter]
  apply List.filter_congr
  intro g _
  by_cases h : t - g < T
  · have : p - g < T := by linarith
    simp [h, this]
  · simp [h]

lemma prune_append_self {T t : ℚ} (hT : 0 < T) (G : List ℚ) :
    prune T t (G ++ [t]) = prune T t G ++ [t] := by
  unfold prune
  rw [List.filter_append]
  simp [hT]

lemma windowCount_mem_lt {T w t : ℚ} {maxR : ℕ} {G : List ℚ}
    (hwin : w < t ∧ t ≤ w + T) (hlen : (prune T t G).length < maxR) :
    windowCount T w G < maxR := by
  have hmono : windowCount T w G ≤ (prune T t G).length := by
    apply filter_length_mono
    intro g hg
    simp only [Bool.and_eq_true, decide_eq_true_eq] at hg
    have : t - g < T := by linarith [hg.1, hg.2, hwin.2]
    simpa using this
  omega

lemma windowCount_append (T w : ℚ) (G H : List ℚ) :
    windowCount T w (G ++ H) = windowCount T w G + windowCount T w H := by
  unfold windowCount
  rw [List.filter_append, List.length_append]

lemma rl_aux (maxR : ℕ) (T : ℚ) (hT : 0 < T) :
    ∀ (att G : List ℚ) (p : ℚ),
      List.Sorted (· ≤ ·) att →
      (∀ t ∈ att, p ≤ t) →
      (∀ w, windowCount T w G ≤ maxR) →
      ∀ w, windowCount T w (G ++ rlGrants maxR T (prune T p G) att) ≤ maxR := by
  intro att
  induction att with
  | nil =>
    intro G p _ _ hG w
    simpa [rlGrants] using hG w
  | cons t ts ih =>
    intro G p hsort hall hG w
    have hpt : p ≤ t := hall t (by simp)
    have hts : ∀ u ∈ ts, t ≤ u := List.rel_of_sorted_cons hsort
    have hsts : List.Sorted (· ≤ ·) ts := hsort.of_cons
    have hpp : prune T t (prune T p G) = prune T t G := prune_prune hpt G
    by_cases hlen : (prune T t G).length < maxR
    · -- granted: t is recorded
      have hstep : rlGrants maxR T (prune T p G) (t :: ts) =
          t :: rlGrants maxR T (prune T t G ++ [t]) ts := by
        simp only [rlGrants, rlStep, hpp]
        rw [if_pos hlen]
      rw [hstep]
      have hG' : ∀ w', windowCount T w' (G ++ [t]) ≤ maxR := by
        intro w'
        rw [windowCount_append]
        by_cases hin : w' < t ∧ t ≤ w' + T
        · have := windowCount_mem_lt hin hlen
          have h1 : windowCount T w' [t] ≤ 1 := by
            unfold windowCount
            cases h : decide (w' < t) && decide (t ≤ w' + T) <;> simp [h]
          omega
        · have h0 : windowCount T w' [t] = 0 := by
            unfold windowCount
            rcases not_and_or.mp hin with h | h
            · simp [h]
            · simp [h]
          have := hG w'
          omega
      have := ih (G ++ [t]) t hsts hts hG' w
      rw [prune_append_self hT] at this
      calc windowCount T w (G ++ t :: rlGrants maxR T (prune T t G ++ [t]) ts) =
          windowCount T w ((G ++ [t]) ++ rlGrants maxR T (prune T t G ++ [t]) ts) := by
            rw [List.append_assoc]; rfl
        _ ≤ maxR := this
    · -- denied: nothing recorded
      have hstep : rlGrants maxR T (prune T p G) (t :: ts) =
          rlGrants maxR T (prune T t G) ts := by
        simp only [rlGrants, rlStep, hpp]
        rw [if_neg hlen]
      rw [hstep]
      exact ih G t hsts hts hG w

lemma rlStep_denied {maxR : ℕ} {T : ℚ} (hR : 0 < maxR) (reqs : List ℚ)
    (now : ℚ) (p : List ℚ) (ww : ℚ)
    (h : rlStep maxR T reqs now = (p, some ww)) :
    ww = T - (now - p.headI) ∧ 0 < ww ∧
      (prune T (now + ww) p).length < p.length := by
  unfold rlStep at h
  by_cases hlen : (prune T now reqs).length < maxR
  · rw [if_pos hlen] at h
    exact absurd (congrArg Prod.snd h) (by simp)
  · rw [if_neg hlen] at h
    obtain ⟨hp, hww⟩ := Prod.mk.injEq .. ▸ h
    have hwweq : ww = T - (now - p.headI) := by
      rw [← hp]; exact (Option.some.injEq .. ▸ hww).symm
    subst hp
    refine ⟨hwweq, ?_, ?_⟩
    · -- the head of the pruned list is inside the window, so the wait is positive
      have hne : prune T now reqs ≠ [] := by
        intro hnil
        rw [hnil] at hlen
        simp at hlen
        omega
      obtain ⟨h0, rest, hcons⟩ := List.exists_cons_of_ne_nil hne
      have hh : decide (now - h0 < T) = true := by
        have : h0 ∈ prune T now reqs := by rw [hcons]; simp
        exact (List.mem_filter.mp this).2
      rw [hwweq, hcons]
      simp only [List.headI]
      have : now - h0 < T := of_decide_eq_true hh
      linarith
    · -- after waiting, the oldest request has left the window
      have hne : prune T now reqs ≠ [] := by
        intro hnil
        rw [hnil] at hlen
        simp at hlen
        omega
      obtain ⟨h0, rest, hcons⟩ := List.exists_cons_of_ne_nil hne
      rw [hcons]
      have hhead : (h0 :: rest).headI = h0 := rfl
      have hfail : decide (now + ww - h0 < T) = false := by
        rw [hwweq, hcons, hhead]
        have : ¬ (now + (T - (now - h0)) - h0 < T) := by ring_nf; simp
        simpa using this
      unfold prune
      rw [List.filter_cons, hfail]
      simp only [List.length_cons]
      calc (rest.filter (fun g => decide (now + ww - g < T))).length ≤ rest.length :=
            rest.length_filter_le _
        _ < rest.length + 1 := by omega

/-- C1: for every monotone sequence of acquire checks on one limiter, the
number of grants inside any sliding window of length `T` never exceeds
`maxR`; and whenever the check denies (limiter full), the computed wait is
`T - (now - oldest_request_in_window)`, is positive, and after waiting that
long the oldest recorded request has left the window, so the re-check makes
strict progress (acquire blocks, it does not fail). -/
theorem C1_rate_limiter_window (maxR : ℕ) (T : ℚ) (hT : 0 < T) (hR : 0 < maxR)
    (att : List ℚ) (hs : List.Sorted (· ≤ ·) att) :
    (∀ w, windowCount T w (rlGrants maxR T [] att) ≤ maxR) ∧
    (∀ (reqs : List ℚ) (now : ℚ) (p : List ℚ) (ww : ℚ),
      rlStep maxR T reqs now = (p, some ww) →
      ww = T - (now - p.headI) ∧ 0 < ww ∧
        (prune T (now + ww) p).length < p.length) := by
  constructor
  · intro w
    cases att with
    | nil => simp [rlGrants, windowCount]
    | cons t ts =>
      have hall : ∀ u ∈ t :: ts, t ≤ u := by
        intro u hu
        rcases List.mem_cons.mp hu with h | h
        · exact le_of_eq h.symm
        · exact List.rel_of_sorted_cons hs u h
      have := rl_aux maxR T hT (t :: ts) [] t hs hall
        (by intro w'; simp [windowCount]) w
      simpa [prune] using this
  · intro reqs now p ww h
    exact rlStep_denied hR reqs now p ww h

/-- Witness for C1 at `maxR = 1`, `T = 1`, attempts at times 0, 0, 1:
the second attempt is denied (window full) and every window holds at most
one grant; the denied step at request list `[0]`, time 0 reports wait 1. -/
theorem C1_rate_limiter_window_witness :
    windowCount 1 0 (rlGrants 1 1 [] [0, 0, 1]) ≤ 1 ∧
    (1 : ℚ) = 1 - (0 - ([0] : List ℚ).headI) ∧ (0 : ℚ) < 1 ∧
      (prune 1 (0 + 1) [0]).length < ([0] : List ℚ).length := by
  have h := C1_rate_limiter_window 1 1 (by norm_num) (by norm_num) [0, 0, 1]
    (by simp [List.Sorted])
  have hstep : rlStep 1 1 [0] 0 = ([0], some 1) := by
    unfold rlStep prune
    norm_num [List.filter]
  exact ⟨h.1 0, h.2 [0] 0 [0] 1 hstep⟩

/-! ## KiteMCPClient.call (kite_mcp_client.py)

The retry loop `for attempt in range(self.max_retries + 1)` is embedded as a
fuel-indexed recursion (`fuel = max_retries + 1 - attempt`); the outcome of
the underlying `call_tool` at each attempt is an environment `env : ℕ → COut`.
Error classification mirrors the source: substring tests on the lowercased
exception text, the exception type name list, and the `anyio` isinstance
check. Side effects (sleeps and forced reconnects) are collected as events. -/

def chPre : List Char → List Char → Bool
  | [], _ => true
  | _ :: _, [] => false
  | a :: as, b :: bs => a == b && chPre as bs

def chSub (needle : List Char) : List Char → Bool
  | [] => chPre needle []
  | c :: rest => chPre needle (c :: rest) || chSub needle rest

/-- Python `needle in hay` on strings. -/
def strIn (needle hay : String) : Bool := chSub needle.toList hay.toList

/-- ASCII lowercase of one character, as Python `str.lower` acts on the
ASCII error texts the client matches against. -/
def lowerChar (c : Char) : Char :=
  if c.toNat ≥ 65 && c.toNat ≤ 90 then Char.ofNat (c.toNat + 32) else c

/-- Python `s.lower()` (ASCII). -/
def strLower (s : String) : String := String.mk (s.data.map lowerChar)

structure PyError where
  msg : String
  typeName : String
  isClosedResource : Bool
deriving DecidableEq

def isRateLimitErr (e : PyError) : Bool :=
  strIn "429" (strLower e.msg) || strIn "too many requests" (strLower e.msg)

def connWords : List String := ["broken", "connection", "closed", "resource", "anyio"]

def connTypeNames : List String :=
  ["ClosedResourceError", "RemoteProtocolError", "EndOfStream", "ConnectionResetError"]

def isConnErr (e : PyError) : Bool :=
  connWords.any (fun word => strIn word (strLower e.msg)) ||
    connTypeNames.contains e.typeName || e.isClosedResource

inductive COut where
  | ok (v : ℕ)
  | err (e : PyError)
deriving DecidableEq

inductive CEvent where
  | slept (d : ℚ)
  | reconnected
deriving DecidableEq

inductive CRes where
  | ok (v : ℕ)
  | rateLimited (retries : ℕ)
  | raised (e : PyError)
  | exhausted
deriving DecidableEq

def callIter (mR : ℕ) (d : ℚ) (env : ℕ → COut) : ℕ → ℕ → List CEvent × CRes
  | _, 0 => ([], CRes.exhausted)
  | attempt, fuel + 1 =>
    match env attempt with
    | .ok v => ([], CRes.ok v)
    | .err e =>
      if isRateLimitErr e then
        if attempt < mR then
          let r := callIter mR d env (attempt + 1) fuel
          (CEvent.slept (d * 2 ^ attempt) :: r.1, r.2)
        else ([], CRes.rateLimited mR)
      else if isConnErr e then
        if attempt < mR then
          let r := callIter mR d env (attempt + 1) fuel
          (CEvent.reconnected :: CEvent.slept (d * 2 ^ attempt) :: r.1, r.2)
        else ([], CRes.raised e)
      else ([], CRes.raised e)

/-- Embeds `KiteMCPClient.call`: the full loop, events produced plus final result. -/
def callTool (mR : ℕ) (d : ℚ) (env : ℕ → COut) : List CEvent × CRes :=
  callIter mR d env 0 (mR + 1)

def sleepDelays : List CEvent → List ℚ
  | [] => []
  | CEvent.slept d :: r => d :: sleepDelays r
  | CEvent.reconnected :: r => sleepDelays r

lemma callIter_rl_aux (mR : ℕ) (d : ℚ) (env : ℕ → COut)
    (hf : ∀ i, i ≤ mR → ∃ e, env i = .err e ∧ isRateLimitErr e = true) :
    ∀ fuel attempt, attempt + fuel = mR + 1 → attempt ≤ mR →
      callIter mR d env attempt fuel =
        ((List.range' attempt (mR - attempt)).map (fun i => CEvent.slept (d * 2 ^ i)),
          CRes.rateLimited mR) := by
  intro fuel
  induction fuel with
  | zero => intro attempt h hle; omega
  | succ fuel ih =>
    intro attempt h hle
    obtain ⟨e, henv, hrl⟩ := hf attempt hle
    by_cases hlt : attempt < mR
    · have hrec := ih (attempt + 1) (by omega) (by omega)
      have hn : mR - attempt = (mR - (attempt + 1)) + 1 := by omega
      simp only [callIter, henv, hrl, if_true, hlt, hrec, hn, List.range'_succ, List.map_cons]
    · have hattempt : attempt = mR := by omega
      have hn : mR - attempt = 0 := by omega
      simp only [callIter, henv, hrl, if_true, hlt, if_false, hn, List.range', List.map_nil]

/-- C2: when every attempt fails with a rate-limit signal ("429" or
"too many requests" in the error text), `call` sleeps
`retry_delay * 2 ^ attempt` before each of its `max_retries` retries and then
raises the typed rate-limit `ToolError`, not the raw underlying exception;
the successive delays are strictly increasing. -/
theorem C2_rate_limit_retries (mR : ℕ) (d : ℚ) (hd : 0 < d) (env : ℕ → COut)
    (hf : ∀ i, i ≤ mR → ∃ e, env i = .err e ∧ isRateLimitErr e = true) :
    callTool mR d env =
      ((List.range mR).map (fun i => CEvent.slept (d * 2 ^ i)), CRes.rateLimited mR) ∧
    (sleepDelays (callTool mR d env).1).Pairwise (· < ·) := by
  have h1 : callTool mR d env =
      ((List.range mR).map (fun i => CEvent.slept (d * 2 ^ i)), CRes.rateLimited mR) := by
    have := callIter_rl_aux mR d env hf (mR + 1) 0 (by omega) (by omega)
    rw [callTool, this, List.range_eq_range']
    simp
  refine ⟨h1, ?_⟩
  rw [h1]
  have hdel : ∀ l : List ℕ,
      sleepDelays (l.map (fun i => CEvent.slept (d * 2 ^ i))) =
        l.map (fun i => d * 2 ^ i) := by
    intro l
    induction l with
    | nil => rfl
    | cons a as ihl => simp [sleepDelays, ihl]
  rw [hdel]
  apply List.Pairwise.map (R := (· < ·))
  · intro a b hab
    have h2 : (2 : ℚ) ^ a < 2 ^ b := by
      apply pow_lt_pow_right₀ (by norm_num) hab
    exact mul_lt_mul_of_pos_left h2 hd
  · exact List.pairwise_lt_range mR

def env429 : ℕ → COut := fun _ => COut.err ⟨"HTTP 429", "ToolError", false⟩

/-- Witness for C2: `max_retries = 2`, `retry_delay = 2`, every attempt
answers HTTP 429. -/
theorem C2_rate_limit_retries_witness :
    callTool 2 2 env429 =
      ((List.range 2).map (fun i => CEvent.slept (2 * 2 ^ i)), CRes.rateLimited 2) ∧
    (sleepDelays (callTool 2 2 env429).1).Pairwise (· < ·) :=
  C2_rate_limit_retries 2 2 (by norm_num) env429
    (fun i _ => ⟨⟨"HTTP 429", "ToolError", false⟩, rfl, by decide⟩)

lemma callIter_conn_ok_aux (mR : ℕ) (d : ℚ) (env : ℕ → COut) :
    ∀ (k attempt fuel : ℕ), attempt + fuel = mR + 1 → attempt + k ≤ mR →
      (∀ i, attempt ≤ i → i < attempt + k →
        ∃ e, env i = .err e ∧ isRateLimitErr e = false ∧ isConnErr e = true) →
      ∀ v, env (attempt + k) = .ok v →
      callIter mR d env attempt fuel =
        ((List.range' attempt k).flatMap
          (fun i => [CEvent.reconnected, CEvent.slept (d * 2 ^ i)]), CRes.ok v) := by
  intro k
  induction k with
  | zero =>
    intro attempt fuel h hk hfail v hok
    cases fuel with
    | zero => omega
    | succ fuel =>
      simp only [Nat.add_zero] at hok
      simp [callIter, hok, List.range']
  | succ k ih =>
    intro attempt fuel h hk hfail v hok
    cases fuel with
    | zero => omega
    | succ fuel =>
      obtain ⟨e, henv, hrl, hconn⟩ := hfail attempt (le_refl _) (by omega)
      have hlt : attempt < mR := by omega
      have hrec := ih (attempt + 1) fuel (by omega) (by omega)
        (fun i hi1 hi2 => hfail i (by omega) (by omega)) v
        (by rw [show attempt + 1 + k = attempt + (k + 1) by omega]; exact hok)
      simp only [callIter, henv, hrl, Bool.false_eq_true, if_false, hconn, if_true,
        hlt, hrec, List.range'_succ, List.flatMap_cons]
      rfl

lemma callIter_conn_fail_aux (mR : ℕ) (d : ℚ) (env : ℕ → COut)
    (hfail : ∀ i, i ≤ mR →
      ∃ e, env i = .err e ∧ isRateLimitErr e = false ∧ isConnErr e = true) :
    ∀ fuel attempt, attempt + fuel = mR + 1 → attempt ≤ mR →
      ∀ e, env mR = .err e →
      callIter mR d env attempt fuel =
        ((List.range' attempt (mR - attempt)).flatMap
          (fun i => [CEvent.reconnected, CEvent.slept (d * 2 ^ i)]), CRes.raised e) := by
  intro fuel
  induction fuel with
  | zero => intro attempt h hle; omega
  | succ fuel ih
 =>
    intro attempt h hle e hlast
    obtain ⟨e2, henv, hrl, hconn⟩ := hfail attempt hle
    by_cases hlt : attempt < mR
    · have hrec := ih (attempt + 1) (by omega) (by omega) e hlast
      have hn : mR - attempt = (mR - (attempt + 1)) + 1 := by omega
      simp only [callIter, henv, hrl, Bool.false_eq_true, if_false, hconn, if_true,
        hlt, hrec, hn, List.range'_succ, List.flatMap_cons]
      rfl
    · have hattempt : attempt = mR := by omega
      subst hattempt
      rw [hlast] at henv
      have he : e2 = e := by
        injection henv with h2
        exact h2.symm
      subst he
      have hn : attempt - attempt = 0 := by omega
      simp only [callIter, hlast, hrl, Bool.false_eq_true, if_false, hconn, if_true,
        hlt, hn, List.range', List.flatMap_nil]

lemma bind_reconnect_count (f : ℕ → ℚ) :
    ∀ l : List ℕ,
      ((l.flatMap fun i => [CEvent.reconnected, CEvent.slept (f i)]).countP
        (fun ev => decide (ev = CEvent.reconnected))) = l.length := by
  intro l
  induction l with
  | nil => rfl
  | cons a as ihl =>
    rw [List.flatMap_cons, List.countP_append, ihl]
    simp [List.countP_cons]
    omega

/-- C3: transport-broken failures force exactly one full
teardown-and-reconnect before each retry. If the first `k ≤ max_retries`
attempts fail with connection errors and attempt `k` succeeds, the call
performs exactly `k` forced reconnects (one per retry) and returns the
successful result with no error; if every attempt fails, after
`max_retries` retries the original underlying exception is re-raised
unchanged. -/
theorem C3_transport_retries (mR : ℕ) (d : ℚ) (env : ℕ → COut) (k : ℕ)
    (hf : ∀ i, i < k →
      ∃ e, env i = .err e ∧ isRateLimitErr e = false ∧ isConnErr e = true) :
    (∀ v, k ≤ mR → env k = .ok v →
      callTool mR d env =
        ((List.range k).flatMap
          (fun i => [CEvent.reconnected, CEvent.slept (d * 2 ^ i)]), CRes.ok v) ∧
      ((callTool mR d env).1.countP (fun ev => decide (ev = CEvent.reconnected))) = k) ∧
    (k = mR + 1 → ∀ e, env mR = .err e →
      callTool mR d env =
        ((List.range mR).flatMap
          (fun i => [CEvent.reconnected, CEvent.slept (d * 2 ^ i)]), CRes.raised e)) := by
  constructor
  · intro v hk hok
    have h1 : callTool mR d env =
        ((List.range k).flatMap
          (fun i => [CEvent.reconnected, CEvent.slept (d * 2 ^ i)]), CRes.ok v) := by
      have := callIter_conn_ok_aux mR d env k 0 (mR + 1) (by omega) (by omega)
        (fun i hi1 hi2 => hf i (by omega)) v (by simpa using hok)
      rw [callTool, this, List.range_eq_range']
    refine ⟨h1, ?_⟩
    rw [h1]
    have := bind_reconnect_count (fun i => d * 2 ^ i) (List.range k)
    simpa using this
  · intro hk e hlast
    have hfall : ∀ i, i ≤ mR →
        ∃ e2, env i = .err e2 ∧ isRateLimitErr e2 = false ∧ isConnErr e2 = true := by
      intro i hi
      exact hf i (by omega)
    have := callIter_conn_fail_aux mR d env hfall (mR + 1) 0 (by omega) (by omega) e hlast
    rw [callTool, this, List.range_eq_range']
    simp

def envConn3 : ℕ → COut := fun i =>
  if i < 3 then COut.err ⟨"connection closed", "RemoteProtocolError", false⟩
  else COut.ok 7

/-- Witness for C3, the spec scenario: `max_retries = 5`, three consecutive
transport failures, fourth attempt succeeds: exactly 3 forced reconnects and
the result is returned normally. -/
theorem C3_transport_retries_witness :
    callTool 5 2 envConn3 =
      ((List.range 3).flatMap
        (fun i => [CEvent.reconnected, CEvent.slept (2 * 2 ^ i)]), CRes.ok 7) ∧
    ((callTool 5 2 envConn3).1.countP (fun ev => decide (ev = CEvent.reconnected))) = 3 :=
  (C3_transport_retries 5 2 envConn3 3
    (fun i hi => ⟨⟨"connection closed", "RemoteProtocolError", false⟩,
      by interval_cases i <;> rfl, by decide, by decide⟩)).1 7 (by omega) rfl

/-! ## MasterAgent (backend/src/kite/portbot/agent/master_agent.py)

`executeM` embeds `MasterAgent.execute` (the outcome of `agent.run` is an
`Except`: `.error e` models a raised exception with text `e`). `validSel`
embeds `_is_valid_selection` including its in-place pruning of unknown
argument keys, and `routeQueryM` embeds `route_query` applied to a router
selection, additionally recording which (validated, pruned) steps were
actually executed. -/

structure ExecResult where
  status : String
  message : Option String
deriving DecidableEq

structure Step where
  agent : String
  tool : String
  arguments : List (String × String)
deriving DecidableEq

structure CatItem where
  agent : String
  tool : String
  parameters : List String
deriving DecidableEq

/-- Embeds `_is_valid_selection`: empty agent or tool is falsy and rejected; an
(agent, tool) found in the catalog validates, with argument keys that are
not declared parameters removed; otherwise the selection is invalid. -/
def validSel (cat : List CatItem) (s : Step) : Option Step :=
  if s.agent = "" ∨ s.tool = "" then none
  else
    match cat.find? (fun it => it.agent == s.agent && it.tool == s.tool) with
    | some it =>
      some { s with arguments := s.arguments.filter (fun kv => it.parameters.contains kv.1) }
    | none => none

structure PlanOut where
  executed : List Step
  results : List ExecResult
  ok : Bool
deriving DecidableEq

/-- The multi-step loop of `route_query`: validate each step inside the
loop; an invalid step aborts with an error, but the steps validated before
it have already been executed. -/
def runPlan (cat : List CatItem) (ex : Step → ExecResult) : List Step → PlanOut
  | [] => ⟨[], [], true⟩
  | s :: rest =>
    match validSel cat s with
    | none => ⟨[], [], false⟩
    | some s2 =>
      let o := runPlan cat ex rest
      ⟨s2 :: o.executed, ex s2 :: o.results, o.ok⟩

inductive Selection where
  | single (s : Step)
  | plan (ps : List Step)
  | noSel
deriving DecidableEq

structure RouteOutM where
  status : String
  message : Option String
  executed : List Step
deriving DecidableEq

def noMapMsg : String :=
  "I could not map that to a portfolio tool."

/-- Embeds `MasterAgent.route_query` on a router selection. -/
def routeQueryM (cat : List CatItem) (ex : Step → ExecResult) :
    Selection → RouteOutM
  | Selection.single s =>
    match validSel cat s with
    | some s2 => ⟨(ex s2).status, (ex s2).message, [s2]⟩
    | none => ⟨"error", some noMapMsg, []⟩
  | Selection.plan ps =>
    let o := runPlan cat ex ps
    if o.ok then ⟨"success", none, o.executed⟩
    else ⟨"error", some "Router produced invalid step.", o.executed⟩
  | Selection.noSel => ⟨"error", some noMapMsg, []⟩

def holdCat : List CatItem := [⟨"portfolio", "get_holdings", []⟩]

def okStep : Step := ⟨"portfolio", "get_holdings", []⟩

def badStep : Step := ⟨"portfolio", "nonexistent_tool", []⟩

def execOkFn : Step → ExecResult := fun _ => ⟨"success", none⟩

/-- Counterexample for C4: a two-step plan whose second step references an
unknown tool. `route_query` does return an error result, but the first
(valid) step has already been executed before the invalid step is
discovered, so the claimed "zero steps of that plan are executed" is false. -/
theorem C4_counterexample :
    (routeQueryM holdCat execOkFn (Selection.plan [okStep, badStep])).status = "error" ∧
    (routeQueryM holdCat execOkFn (Selection.plan [okStep, badStep])).executed = [okStep] ∧
    (routeQueryM holdCat execOkFn (Selection.plan [okStep, badStep])).executed ≠ [] := by
  refine ⟨?_, ?_, ?_⟩ <;> decide

lemma runPlan_invalid (cat : List CatItem) (ex : Step → ExecResult) :
    ∀ ps : List Step, (∃ s ∈ ps, validSel cat s = none) →
      (runPlan cat ex ps).ok = false ∧
      (runPlan cat ex ps).executed =
        (ps.takeWhile (fun s => (validSel cat s).isSome)).filterMap (validSel cat) := by
  intro ps
  induction ps with
  | nil => intro h; simp at h
  | cons s rest ih =>
    intro h
    cases hv : validSel cat s with
    | none =>
      constructor
      · simp [runPlan, hv]
      · simp [runPlan, List.takeWhile_cons, hv]
    | some s2 =>
      have hrest : ∃ x ∈ rest, validSel cat x = none := by
        obtain ⟨x, hx, hxn⟩ := h
        rcases List.mem_cons.mp hx with heq | hmem
        · subst heq; rw [hv] at hxn; exact absurd hxn (by simp)
        · exact ⟨x, hmem, hxn⟩
      obtain ⟨hok, hexec⟩ := ih hrest
      constructor
      · simp [runPlan, hv, hok]
      · simp [runPlan, List.takeWhile_cons, hv, hexec, List.filterMap_cons]

/-- C4 (amended): a plan containing a step whose (agent, tool) is not in
the catalog makes `route_query` return an error result and no step at or
after the first invalid one executes — but the valid steps preceding it
HAVE already been executed (the executed list is exactly the validated
prefix before the first invalid step, not empty in general). -/
theorem C4_invalid_plan_prefix (cat : List CatItem) (ex : Step → ExecResult)
    (ps : List Step) (h : ∃ s ∈ ps, validSel cat s = none) :
    (routeQueryM cat ex (Selection.plan ps)).status = "error" ∧
    (routeQueryM cat ex (Selection.plan ps)).executed =
      (ps.takeWhile (fun s => (validSel cat s).isSome)).filterMap (validSel cat) := by
  obtain ⟨hok, hexec⟩ := runPlan_invalid cat ex ps h
  constructor
  · simp [routeQueryM, hok]
  · simp [routeQueryM, hok, hexec]

/-- Witness for the amended C4 on the concrete two-step plan: the error is
returned and exactly the valid first step was executed. -/
theorem C4_invalid_plan_prefix_witness :
    (routeQueryM holdCat execOkFn (Selection.plan [okStep, badStep])).status = "error" ∧
    (routeQueryM holdCat execOkFn (Selection.plan [okStep, badStep])).executed =
      (([okStep, badStep].takeWhile
        (fun s => (validSel holdCat s).isSome)).filterMap (validSel holdCat)) :=
  C4_invalid_plan_prefix holdCat execOkFn [okStep, badStep]
    ⟨badStep, by decide, by decide⟩

/-- C5: a selection whose (agent, tool) exists in the catalog validates to
the same step with every undeclared argument key removed and every declared
key kept, and `route_query` executes exactly that pruned step. -/
theorem C5_argument_pruning (cat : List CatItem) (ex : Step → ExecResult)
    (s : Step) (it : CatItem)
    (ha : ¬ s.agent = "") (ht : ¬ s.tool = "")
    (hfind : cat.find? (fun x => x.agent == s.agent && x.tool == s.tool) = some it) :
    validSel cat s =
      some { s with arguments :=
        s.arguments.filter (fun kv => it.parameters.contains kv.1) } ∧
    (routeQueryM cat ex (Selection.single s)).executed =
      [{ s with arguments :=
        s.arguments.filter (fun kv => it.parameters.contains kv.1) }] ∧
    (routeQueryM cat ex (Selection.single s)).status =
      (ex { s with arguments :=
        s.arguments.filter (fun kv => it.parameters.contains kv.1) }).status := by
  have hv : validSel cat s =
      some { s with arguments :=
        s.arguments.filter (fun kv => it.parameters.contains kv.1) } := by
    unfold validSel
    rw [if_neg (by tauto), hfind]
  exact ⟨hv, by simp [routeQueryM, hv], by simp [routeQueryM, hv]⟩

/-- Witness for C5, the spec instance: selection
`{agent: portfolio, tool: get_holdings, arguments: {bogus: x}}` against a
catalog where `get_holdings` declares no parameters executes with empty
arguments. -/
theorem C5_argument_pruning_witness :
    validSel holdCat ⟨"portfolio", "get_holdings", [("bogus", "x")]⟩ =
      some ⟨"portfolio", "get_holdings", []⟩ ∧
    (routeQueryM holdCat execOkFn
      (Selection.single ⟨"portfolio", "get_holdings", [("bogus", "x")]⟩)).executed =
      [⟨"portfolio", "get_holdings", []⟩] := by
  have h := C5_argument_pruning holdCat execOkFn
    ⟨"portfolio", "get_holdings", [("bogus", "x")]⟩ ⟨"portfolio", "get_holdings", []⟩
    (by decide) (by decide) (by decide)
  exact ⟨h.1, h.2.1⟩

/-! ### MasterAgent.execute -/

structure AgentM where
  tools : List String
  run : String → List (String × String) → Except String ExecResult

/-- Embeds `MasterAgent.execute`: initialization and registry checks, then the
agent call inside try/except — a raised exception (`Except.error`) is
converted into an error dict instead of propagating. -/
def executeM (ini : Bool) (agents : List (String × AgentM)) (an tn : String)
    (kwargs : List (String × String)) : ExecResult :=
  if ini = false then
    ⟨"error", some "MasterAgent not initialized. Use async with MasterAgent."⟩
  else
    match agents.lookup an with
    | none => ⟨"error", some ("Agent " ++ an ++ " not found")⟩
    | some ag =>
      if ag.tools.contains tn = false then
        ⟨"error", some ("Tool " ++ tn ++ " not found on " ++ an)⟩
      else
        match ag.run tn kwargs with
        | Except.ok r => r
        | Except.error e => ⟨"error", some e⟩

/-- C7: whatever exception the run method of the agent raises, `execute` catches it
and returns `{status: error, message: exception text}`; nothing propagates
across the public boundary (the embedding is total, so every call returns a
dict). -/
theorem C7_execute_contains_exceptions (agents : List (String × AgentM))
    (an tn : String) (kwargs : List (String × String)) (ag : AgentM) (e : String)
    (hag : agents.lookup an = some ag)
    (htool : ag.tools.contains tn = true)
    (hrun : ag.run tn kwargs = Except.error e) :
    executeM true agents an tn kwargs = ⟨"error", some e⟩ := by
  unfold executeM
  rw [if_neg (by simp), hag]
  simp only [htool, hrun, Bool.true_eq_false, if_false]

def agRaise : AgentM :=
  ⟨["get_holdings"], fun _ _ => Except.error "boom from agent.run"⟩

/-- Witness for C7 on a concrete registry whose only agent always raises. -/
theorem C7_execute_contains_exceptions_witness :
    executeM true [("portfolio", agRaise)] "portfolio" "get_holdings" [] =
      ⟨"error", some "boom from agent.run"⟩ :=
  C7_execute_contains_exceptions [("portfolio", agRaise)] "portfolio" "get_holdings"
    [] agRaise "boom from agent.run" rfl rfl rfl

/-! ## Session persistence (kite_mcp_client.py)

The observable client state for `clear_session` / `restore_session`:
in-memory headers (an association list), whether a live client/transport
exists, and the on-disk session file (`none` means absent). -/

def baselineUA : List (String × String) := [("User-Agent", "KiteInfi-Backend/1.0")]

structure ClientState where
  headers : List (String × String)
  connected : Bool
  disk : Option (List (String × String))
deriving DecidableEq

/-- Python `dict.update`: existing keys are overwritten in place, new keys
appended. -/
def dictUpd (base upd : List (String × String)) : List (String × String) :=
  (base.map (fun kv =>
    match upd.lookup kv.1 with
    | some v => (kv.1, v)
    | none => kv)) ++
  upd.filter (fun kv => (base.lookup kv.1).isNone)

/-- Embeds `clear_session`: reset headers to the unauthenticated baseline,
invalidate client and transport, delete the on-disk file. -/
def clear_session (_s : ClientState) : ClientState :=
  ⟨baselineUA, false, none⟩

/-- Embeds `restore_session`: if the file exists and holds a non-empty header map,
merge it into the in-memory headers and return true; otherwise leave the
state unchanged and return false. -/
def restore_session (s : ClientState) : ClientState × Bool :=
  match s.disk with
  | none => (s, false)
  | some saved =>
    if saved = [] then (s, false)
    else ({ s with headers := dictUpd s.headers saved }, true)

/-- C6: from any client state, `clear_session` followed by
`restore_session` leaves the unauthenticated baseline: restore finds no
file and returns false without touching the state, the headers hold no key
but the default User-Agent (no stale credential leaks back), and both
operations are idempotent and safe to repeat on a session-less state. -/
theorem C6_clear_then_restore (s : ClientState) :
    (restore_session (clear_session s)).2 = false ∧
    (restore_session (clear_session s)).1 = clear_session s ∧
    (clear_session s).disk = none ∧
    (clear_session s).headers = baselineUA ∧
    (∀ k v, (clear_session s).headers.lookup k = some v → k = "User-Agent") ∧
    clear_session (clear_session s) = clear_session s ∧
    (restore_session ((restore_session (clear_session s)).1)).2 = false := by
  refine ⟨rfl, rfl, rfl, rfl, ?_, rfl, rfl⟩
  intro k v hkv
  simp only [clear_session, baselineUA, List.lookup] at hkv
  by_cases hk : k = "User-Agent"
  · exact hk
  · have hkb : (k == "User-Agent") = false := by simpa using hk
    rw [hkb] at hkv
    exact absurd hkv (by simp)

/-! ## ConversationMemory (chatbot.py, `_remember` / `_maybe_compress_memory`)

A turn is a (role, content) pair. `pyLastSlice` is the Python slice
`memory[-max_turns:]` including its `-0` edge case. -/

def pyLastSlice (n : ℕ) (l : List (String × String)) : List (String × String) :=
  if n = 0 then l else l.drop (l.length - n)

def compressMem (maxTurns : ℕ) (mem : List (String × String)) :
    List (String × String) :=
  if mem.length > maxTurns then pyLastSlice maxTurns mem else mem

/-- Embeds `_remember`: append the turn, then enforce the bound. -/
def rememberM (maxTurns : ℕ) (mem : List (String × String))
    (t : String × String) : List (String × String) :=
  compressMem maxTurns (mem ++ [t])

def rememberAll (maxTurns : ℕ) (mem0 : List (String × String))
    (ts : List (String × String)) : List (String × String) :=
  ts.foldl (rememberM maxTurns) mem0

lemma compressMem_eq_drop {maxTurns : ℕ} (hm : 0 < maxTurns)
    (l : List (String × String)) :
    compressMem maxTurns l = l.drop (l.length - maxTurns) := by
  unfold compressMem pyLastSlice
  by_cases h : l.length > maxTurns
  · rw [if_pos h, if_neg (by omega)]
  · rw [if_neg h]
    have : l.length - maxTurns = 0 := by omega
    rw [this, List.drop_zero]

lemma rememberM_lastN {maxTurns : ℕ} (hm : 0 < maxTurns)
    (h : List (String × String)) (t : String × String) :
    rememberM maxTurns (h.drop (h.length - maxTurns)) t =
      (h ++ [t]).drop ((h ++ [t]).length - maxTurns) := by
  unfold rememberM
  rw [compressMem_eq_drop hm]
  by_cases hk : h.length ≤ maxTurns
  · have h0 : h.length - maxTurns = 0 := by omega
    rw [h0, List.drop_zero]
  · have hlen : (h.drop (h.length - maxTurns)).length = maxTurns := by
      rw [List.length_drop]; omega
    rw [List.length_append, hlen, List.length_append]
    have h1 : maxTurns + [t].length - maxTurns = 1 := by simp
    rw [h1]
    have hdrop1 : (h.drop (h.length - maxTurns) ++ [t]).drop 1 =
        (h.drop (h.length - maxTurns)).drop 1 ++ [t] := by
      apply List.drop_append_of_le_length
      omega
    rw [hdrop1, List.drop_drop]
    have h2 : (h ++ [t]).drop (h.length + [t].length - maxTurns) =
        h.drop (h.length + [t].length - maxTurns) ++ [t] := by
      apply List.drop_append_of_le_length
      simp; omega
    rw [h2]
    congr 1
    congr 1
    simp
    omega

lemma rememberAll_lastN {maxTurns : ℕ} (hm : 0 < maxTurns) :
    ∀ (ts h : List (String × String)),
      rememberAll maxTurns (h.drop (h.length - maxTurns)) ts =
        (h ++ ts).drop ((h ++ ts).length - maxTurns) := by
  intro ts
  induction ts with
  | nil => intro h; simp [rememberAll]
  | cons t ts ih =>
    intro h
    have hstep := rememberM_lastN hm h t
    calc rememberAll maxTurns (h.drop (h.length - maxTurns)) (t :: ts) =
        rememberAll maxTurns ((h ++ [t]).drop ((h ++ [t]).length - maxTurns)) ts := by
          unfold rememberAll
          rw [List.foldl_cons, hstep]
      _ = ((h ++ [t]) ++ ts).drop (((h ++ [t]) ++ ts).length - maxTurns) := ih (h ++ [t])
      _ = (h ++ t :: ts).drop ((h ++ t :: ts).length - maxTurns) := by
          rw [List.append_assoc]; rfl

/-- C8: starting from empty memory with a positive bound, after any
sequence of appended turns the memory holds at most the bound, and it is
exactly the bound most recent turns of the appended sequence —
truncated from the oldest end, survivors in oldest-first order. -/
theorem C8_memory_bound (maxTurns : ℕ) (hm : 0 < maxTurns)
    (ts : List (String × String)) :
    (rememberAll maxTurns [] ts).length ≤ maxTurns ∧
    rememberAll maxTurns [] ts = ts.drop (ts.length - maxTurns) := by
  have h := rememberAll_lastN hm ts []
  simp only [List.length_nil, List.nil_append, List.drop_nil] at h
  refine ⟨?_, h⟩
  rw [h, List.length_drop]
  omega

/-- Witness for C8 with bound 2 and three appended turns: exactly the two
most recent remain, in order. -/
theorem C8_memory_bound_witness :
    (rememberAll 2 [] [("user", "a"), ("assistant", "b"), ("user", "c")]).length ≤ 2 ∧
    rememberAll 2 [] [("user", "a"), ("assistant", "b"), ("user", "c")] =
      [("user", "a"), ("assistant", "b"), ("user", "c")].drop
        ([("user", "a"), ("assistant", "b"), ("user", "c")].length - 2) :=
  C8_memory_bound 2 (by norm_num) [("user", "a"), ("assistant", "b"), ("user", "c")]

/-! ## KiteChatbot.chat_stream (chatbot.py)

The async generator is embedded as the ordered trace of its observable
events: yielded tokens, `_remember` calls, the `_rewrite_query` call and
the `master.route_query` call. A consumer that cancels after taking some
tokens has executed exactly a prefix of this trace. The LLM and router are
the environment (`ChatEnv`). -/

/-- Python `str.strip()`. -/
def pyStrip (s : String) : String :=
  String.mk (((s.data.dropWhile Char.isWhitespace).reverse.dropWhile
    Char.isWhitespace).reverse)

def wordAcc : List Char → List Char → List String
  | acc, [] => if acc = [] then [] else [String.mk acc.reverse]
  | acc, c :: rest =>
    if c.isWhitespace then
      if acc = [] then wordAcc [] rest
      else String.mk acc.reverse :: wordAcc [] rest
    else wordAcc (c :: acc) rest

/-- Python `str.split()` (split on whitespace runs, no empty words). -/
def pySplit (s : String) : List String := wordAcc [] s.data

def strConcat (l : List String) : String := String.mk (l.flatMap String.data)

structure QClass where
  qtype : String
  needsRouting : Bool
deriving DecidableEq

def greetingsList : List String :=
  ["hi", "hello", "hey", "thanks", "thank you", "thanks!", "ok", "okay", "nice",
   "good", "great", "thanks for the info", "thanks buddy", "got it"]

def oosKeywords : List String :=
  ["weather", "politics", "joke", "recipe", "song", "movie", "sports", "cricket"]

/-- Embeds `_classify_query`. -/
def classifyQuery (query : String) : QClass :=
  let q := pyStrip (strLower query)
  let words := pySplit q
  if greetingsList.contains q ||
      (decide (words.length ≤ 3) && greetingsList.any (fun g => strIn g q)) then
    ⟨"acknowledgment", false⟩
  else if oosKeywords.any (fun kw => strIn kw q) then
    ⟨"out_of_scope", false⟩
  else
    ⟨"financial", true⟩

inductive ChatEv where
  | yld (tok : String)
  | rem (role content : String)
  | rewriteQ (q : String)
  | route (q : String)
deriving DecidableEq

structure RouteRes where
  status : Option String
  message : Option String
deriving DecidableEq

inductive RouteOut where
  | raised (e : String)
  | res (r : RouteRes)
deriving DecidableEq

structure ChatEnv where
  narrate : Bool
  rewritten : String
  routed : RouteOut
  ackTokens : List String
  narrTokens : List String
  fallbackTokens : List String
  preferMsg : String
deriving DecidableEq

def issueMsg (e : String) : String :=
  "I encountered an issue: " ++ e ++ ". Please try again."

def loginPromptMsg : String :=
  "Your Zerodha Kite session is not active. Please click Connect in the sidebar."

def defaultErrMsg : String := "I could not process that request."

/-- Event trace of one `chat_stream(user_input)` turn. -/
def chatStreamTrace (inp : String) (env : ChatEnv) : List ChatEv :=
  if pyStrip inp = "" then [ChatEv.yld ""]
  else if (classifyQuery inp).needsRouting = false then
    ChatEv.rem "user" inp ::
      (env.ackTokens.map ChatEv.yld ++
        [ChatEv.rem "assistant" (strConcat env.ackTokens)])
  else
    ChatEv.rewriteQ inp :: ChatEv.route env.rewritten ::
      (match env.routed with
       | RouteOut.raised e =>
         [ChatEv.rem "user" inp, ChatEv.rem "assistant" (issueMsg e),
          ChatEv.yld (issueMsg e)]
       | RouteOut.res r =>
         if r.status = some "error" then
           let m0 := r.message.getD defaultErrMsg
           let m := if strIn "please log in" (strLower m0) then loginPromptMsg else m0
           [ChatEv.rem "user" inp, ChatEv.rem "assistant" m, ChatEv.yld m]
         else if r.status = some "success" then
           if env.narrate then
             env.narrTokens.map ChatEv.yld ++
               [ChatEv.rem "user" inp,
                ChatEv.rem "assistant" (strConcat env.narrTokens)]
           else
             [ChatEv.rem "user" inp, ChatEv.rem "assistant" env.preferMsg,
              ChatEv.yld env.preferMsg]
         else
           ChatEv.rem "user" inp ::
             (env.fallbackTokens.map ChatEv.yld ++
               [ChatEv.rem "assistant" (strConcat env.fallbackTokens)]))

def isRemB : ChatEv → Bool
  | ChatEv.rem _ _ => true
  | _ => false

/-- The `_remember` calls (memory mutations) inside a trace. -/
def memEvents (tr : List ChatEv) : List ChatEv := tr.filter isRemB

def isYldB : ChatEv → Bool
  | ChatEv.yld _ => true
  | _ => false

def countYld (tr : List ChatEv) : ℕ := tr.countP isYldB

def isRouteB : ChatEv → Bool
  | ChatEv.route _ => true
  | _ => false

def isRewriteB : ChatEv → Bool
  | ChatEv.rewriteQ _ => true
  | _ => false

def c9env : ChatEnv :=
  ⟨true, "x", RouteOut.res ⟨none, none⟩, ["Hel", "lo!"], [], [], ""⟩

/-- Counterexample for C9: for the acknowledgment input "hi", the user turn
is committed to memory before the reply streams; a consumer that cancels
after the first of two tokens (before the terminal token) leaves memory
changed — the claimed "memory unchanged on any cancellation" is false. -/
theorem C9_counterexample :
    memEvents ((chatStreamTrace "hi" c9env).take 2) = [ChatEv.rem "user" "hi"] ∧
    countYld ((chatStreamTrace "hi" c9env).take 2) = 1 ∧
    countYld (chatStreamTrace "hi" c9env) = 2 := by
  refine ⟨?_, ?_, ?_⟩ <;> decide

lemma filter_take_nil {α : Type} (p : α → Bool) :
    ∀ (l : List α) (n : ℕ), l.filter p = [] → (l.take n).filter p = [] := by
  intro l
  induction l with
  | nil => intro n _; simp
  | cons a as ih =>
    intro n h
    cases n with
    | zero => simp
    | succ n =>
      rw [List.filter_cons] at h
      cases hp : p a with
      | true => rw [hp] at h; exact absurd h (by simp)
      | false =>
        rw [hp] at h
        rw [List.take_succ_cons, List.filter_cons, hp]
        exact ih n h

lemma map_yld_no_rem (ts : List String) :
    (ts.map ChatEv.yld).filter isRemB = [] := by
  induction ts with
  | nil => rfl
  | cons t ts ih => simp [List.filter_cons, isRemB, ih]

/-- C9 (amended): only on the successful-narration path (financial
classification, router success, narration enabled) is memory committed
strictly after the full token stream: every cancellation prefix that ends
at or before the last yielded token contains no `_remember` call, so a
cancelled turn leaves memory unchanged there. (On acknowledgment,
out-of-scope, routing-error and fallback paths the user turn — and on error
paths also the assistant turn — is committed before streaming, as the
counterexample shows.) -/
theorem C9_narration_no_commit (inp : String) (env : ChatEnv) (r : RouteRes)
    (hws : ¬ pyStrip inp = "")
    (hc : (classifyQuery inp).needsRouting = true)
    (hr : env.routed = RouteOut.res r)
    (hst : r.status = some "success")
    (hn : env.narrate = true) :
    ∀ n, n ≤ 2 + env.narrTokens.length →
      memEvents ((chatStreamTrace inp env).take n) = [] := by
  intro n hle
  have htr : chatStreamTrace inp env =
      (ChatEv.rewriteQ inp :: ChatEv.route env.rewritten ::
        env.narrTokens.map ChatEv.yld) ++
      [ChatEv.rem "user" inp, ChatEv.rem "assistant" (strConcat env.narrTokens)] := by
    unfold chatStreamTrace
    rw [if_neg hws]
    rw [if_neg (by rw [hc]; exact fun hcon => Bool.noConfusion hcon)]
    rw [hr]
    have hne : ¬ r.status = some "error" := by rw [hst]; simp
    simp only [hne, if_false, hst, if_pos, hn, if_true]
    simp
  rw [htr]
  rw [List.take_append_of_le_length
    (by simp only [List.length_cons, List.length_map]; omega)]
  apply filter_take_nil
  simp only [List.filter_cons, isRemB]
  exact map_yld_no_rem env.narrTokens

def c9okenv : ChatEnv :=
  ⟨true, "standalone query", RouteOut.res ⟨some "success", none⟩, [],
   ["tok1", "tok2"], [], ""⟩

/-- Witness for the amended C9: a financial query whose routing succeeds,
narration on, consumer cancels after the first token — no memory event has
executed. -/
theorem C9_narration_no_commit_witness :
    memEvents ((chatStreamTrace "show holdings" c9okenv).take 3) = [] :=
  C9_narration_no_commit "show holdings" c9okenv ⟨some "success", none⟩
    (by decide) (by decide) rfl rfl rfl 3 (by decide)

/-- C10: a whitespace-only (or empty) input short-circuits `chat_stream`:
the trace is exactly one empty yielded token — no memory mutation, no
router call, no rewrite call. -/
theorem C10_whitespace_short_circuit (inp : String) (env : ChatEnv)
    (h : pyStrip inp = "") :
    chatStreamTrace inp env = [ChatEv.yld ""] ∧
    memEvents (chatStreamTrace inp env) = [] ∧
    (chatStreamTrace inp env).countP isRouteB = 0 ∧
    (chatStreamTrace inp env).countP isRewriteB = 0 := by
  have ht : chatStreamTrace inp env = [ChatEv.yld ""] := by
    unfold chatStreamTrace
    rw [if_pos h]
  refine ⟨ht, ?_, ?_, ?_⟩ <;> rw [ht] <;> decide

def c10env : ChatEnv :=
  ⟨true, "", RouteOut.res ⟨none, none⟩, [], [], [], ""⟩

/-- Witness for C10 on the three-space input. -/
theorem C10_whitespace_short_circuit_witness :
    chatStreamTrace "   " c10env = [ChatEv.yld ""] ∧
    memEvents (chatStreamTrace "   " c10env) = [] ∧
    (chatStreamTrace "   " c10env).countP isRouteB = 0 ∧
    (chatStreamTrace "   " c10env).countP isRewriteB = 0 :=
  C10_whitespace_short_circuit "   " c10env (by decide)

end Finagent
